import Mathlib

/-!
A verification development for the podcast-generation pipeline in
`src/core` (config.py, fetcher.py, llm.py, audio.py, parser.py,
pipeline.py).  The Python code is shallowly embedded: pure string and
list manipulation is translated directly; every outbound HTTP request
is modelled by an oracle parameter describing the response of the
remote service; the nondeterministic completion order of thread-pool
futures is modelled by an explicit order parameter; an uncaught Python
exception is modelled by the `Except.error` case of the pipeline entry
point.  Concrete Python strings are kept verbatim (braces escaped).
-/

namespace Podcast

/-! ## Basic character/string helpers (Python str is modelled as List Char) -/

/-- The characters of a string literal. -/
def chL (s : String) : List Char := s.data

/-- Python `needle in hay` substring test. -/
def isInfixB (needle hay : List Char) : Bool :=
  match hay with
  | [] => needle.isEmpty
  | _ :: t => needle.isPrefixOf hay || isInfixB needle t

/-- Python `str.lower()` (ASCII model). -/
def toLowerL (s : List Char) : List Char := s.map Char.toLower

/-- Python whitespace for `str.strip()` (ASCII model). -/
def isStripWs (c : Char) : Bool :=
  c = ' ' || c = '\t' || c = '\n' || c = '\r' || c = '\x0b' || c = '\x0c'

/-- Left part of Python `str.strip()`. -/
def trimLeftL (s : List Char) : List Char := s.dropWhile isStripWs

/-- Right part of Python `str.strip()`. -/
def trimRightL (s : List Char) : List Char := (s.reverse.dropWhile isStripWs).reverse

/-- Python `str.strip()`. -/
def stripL (s : List Char) : List Char := trimRightL (trimLeftL s)

/-- Split a text into its lines at every newline character. -/
def splitLines : List Char → List (List Char)
  | [] => [[]]
  | c :: rest =>
    if c = '\n' then
      [] :: splitLines rest
    else
      match splitLines rest with
      | [] => [[c]]
      | l :: ls => (c :: l) :: ls

/-- Rejoin lines with newline characters (inverse of `splitLines`). -/
def unLines : List (List Char) → List Char
  | [] => []
  | [l] => l
  | l :: ls => l ++ '\n' :: unLines ls

/-! ## Claim C1: names imported by pipeline.py from the audio module

`src/core/pipeline.py` line 21 reads
`from .audio import generate_audio_parallel, merge_audio_segments`,
while `src/core/audio.py` defines exactly the functions listed below. -/

/-- Top-level function names defined in src/core/audio.py. -/
def audioModuleDefs : List String :=
  ["generate_audio_segment", "generate_audio_for_script"]

/-- Function names that src/core/pipeline.py imports from `.audio`
(line 21) and calls in the Stage-4/Stage-5 branch of `run`. -/
def pipelineAudioImportNames : List String :=
  ["generate_audio_parallel", "merge_audio_segments"]

/-! ## JSON values and a model of Python `json.loads`

`smart_parse_script` in src/core/parser.py calls `json.loads`; the
decoder below mirrors the `json` module grammar (strict mode): objects,
arrays, strings with escapes (including `\uXXXX` and surrogate pairs),
numbers without leading zeros, `true`/`false`/`null`, and the accepted
constants `NaN`/`Infinity`/`-Infinity`.  Control characters are
rejected inside strings (`strict=True`).  Duplicate object keys keep
the last value at the first position, as a Python dict does.  The fuel
argument strictly exceeds any possible number of parsing steps, so it
never causes a spurious failure. -/

inductive JVal where
  | null : JVal
  | bool (b : Bool) : JVal
  | num (lexeme : List Char) : JVal
  | str (s : List Char) : JVal
  | arr (items : List JVal) : JVal
  | obj (members : List (List Char × JVal)) : JVal

/-- JSON whitespace accepted between tokens by `json.loads`. -/
def isJsonWs (c : Char) : Bool :=
  c = ' ' || c = '\t' || c = '\n' || c = '\r'

/-- Skip JSON inter-token whitespace. -/
def skipJWs (cs : List Char) : List Char := cs.dropWhile isJsonWs

/-- Hexadecimal digit test for `\uXXXX` escapes. -/
def isHexDigitB (c : Char) : Bool :=
  c.isDigit || ('a' ≤ c && c ≤ 'f') || ('A' ≤ c && c ≤ 'F')

/-- Value of a hexadecimal digit. -/
def hexVal (c : Char) : Nat :=
  if c.isDigit then c.toNat - '0'.toNat
  else if 'a' ≤ c && c ≤ 'f' then c.toNat - 'a'.toNat + 10
  else c.toNat - 'A'.toNat + 10

/-- Read four hexadecimal digits of a `\uXXXX` escape. -/
def pHex4 : List Char → Option (Nat × List Char)
  | h1 :: h2 :: h3 :: h4 :: rest =>
    if isHexDigitB h1 && isHexDigitB h2 && isHexDigitB h3 && isHexDigitB h4 then
      some ((((hexVal h1) * 16 + hexVal h2) * 16 + hexVal h3) * 16 + hexVal h4, rest)
    else none
  | _ => none

/-- Body of a JSON string after its opening quote: returns the decoded
characters and the input after the closing quote.  Surrogate pairs are
combined as `json/decoder.py` does; a lone surrogate falls back to the
replacement behaviour of `Char.ofNat`. -/
def pStringAux : Nat → List Char → Option (List Char × List Char)
  | 0, _ => none
  | _, [] => none
  | fuel + 1, c :: rest =>
    if c = '"' then some ([], rest)
    else if c = '\\' then
      match rest with
      | [] => none
      | e :: rest2 =>
        if e = '"' then (pStringAux fuel rest2).map (fun p => ('"' :: p.1, p.2))
        else if e = '\\' then (pStringAux fuel rest2).map (fun p => ('\\' :: p.1, p.2))
        else if e = '/' then (pStringAux fuel rest2).map (fun p => ('/' :: p.1, p.2))
        else if e = 'b' then (pStringAux fuel rest2).map (fun p => ('\x08' :: p.1, p.2))
        else if e = 'f' then (pStringAux fuel rest2).map (fun p => ('\x0c' :: p.1, p.2))
        else if e = 'n' then (pStringAux fuel rest2).map (fun p => ('\n' :: p.1, p.2))
        else if e = 'r' then (pStringAux fuel rest2).map (fun p => ('\r' :: p.1, p.2))
        else if e = 't' then (pStringAux fuel rest2).map (fun p => ('\t' :: p.1, p.2))
        else if e = 'u' then
          match pHex4 rest2 with
          | none => none
          | some (n, rest3) =>
            if 0xd800 ≤ n && n ≤ 0xdbff then
              match rest3 with
              | '\\' :: 'u' :: rest4 =>
                match pHex4 rest4 with
                | some (m, rest5) =>
                  if 0xdc00 ≤ m && m ≤ 0xdfff then
                    (pStringAux fuel rest5).map
                      (fun p =>
                        (Char.ofNat (0x10000 + (n - 0xd800) * 0x400 + (m - 0xdc00)) :: p.1,
                         p.2))
                  else (pStringAux fuel rest3).map (fun p => (Char.ofNat n :: p.1, p.2))
                | none => (pStringAux fuel rest3).map (fun p => (Char.ofNat n :: p.1, p.2))
              | _ => (pStringAux fuel rest3).map (fun p => (Char.ofNat n :: p.1, p.2))
            else (pStringAux fuel rest3).map (fun p => (Char.ofNat n :: p.1, p.2))
        else none
    else if c.toNat < 32 then none
    else (pStringAux fuel rest).map (fun p => (c :: p.1, p.2))

/-- Lexeme of a JSON number (sign, integer part without leading zeros,
optional fraction, optional exponent).  Returns the lexeme and rest. -/
def pNumber (cs : List Char) : Option (List Char × List Char) :=
  let signed : List Char × List Char :=
    match cs with
    | '-' :: r => (['-'], r)
    | _ => ([], cs)
  let sign := signed.1
  let cs1 := signed.2
  let intPart : Option (List Char × List Char) :=
    match cs1 with
    | '0' :: r1 => some (['0'], r1)
    | c :: _ =>
      if c.isDigit then some (cs1.takeWhile Char.isDigit, cs1.dropWhile Char.isDigit)
      else none
    | [] => none
  match intPart with
  | none => none
  | some (ip, r2) =>
    let fracPart : Option (List Char × List Char) :=
      match r2 with
      | '.' :: r3 =>
        let ds := r3.takeWhile Char.isDigit
        if ds.isEmpty then none else some ('.' :: ds, r3.dropWhile Char.isDigit)
      | _ => some ([], r2)
    match fracPart with
    | none => none
    | some (fp, r4) =>
      let expPart : Option (List Char × List Char) :=
        match r4 with
        | e :: r5 =>
          if e = 'e' || e = 'E' then
            let signedE : List Char × List Char :=
              match r5 with
              | '+' :: r6 => (['+'], r6)
              | '-' :: r6 => (['-'], r6)
              | _ => ([], r5)
            let ds := signedE.2.takeWhile Char.isDigit
            if ds.isEmpty then none
            else some (e :: signedE.1 ++ ds, signedE.2.dropWhile Char.isDigit)
          else some ([], r4)
        | [] => some ([], r4)
      match expPart with
      | none => none
      | some (ep, r7) => some (sign ++ ip ++ fp ++ ep, r7)

/-- Insert a key into an object, replacing in place on duplicate keys
exactly as assignment into a Python dict does. -/
def objInsert (members : List (List Char × JVal)) (k : List Char) (v : JVal) :
    List (List Char × JVal) :=
  match members with
  | [] => [(k, v)]
  | (k2, v2) :: rest =>
    if k2 = k then (k2, v) :: rest else (k2, v2) :: objInsert rest k v

mutual

/-- Parse one JSON value (after optional leading whitespace). -/
def pValue : Nat → List Char → Option (JVal × List Char)
  | 0, _ => none
  | fuel + 1, cs0 =>
    let cs := skipJWs cs0
    match cs with
    | [] => none
    | c :: rest =>
      if c = '\x7b' then pMembersStart fuel rest
      else if c = '[' then pElemsStart fuel rest
      else if c = '"' then
        (pStringAux (rest.length + 1) rest).map (fun p => (JVal.str p.1, p.2))
      else if (chL ("true")).isPrefixOf cs then some (JVal.bool true, cs.drop 4)
      else if (chL ("false")).isPrefixOf cs then some (JVal.bool false, cs.drop 5)
      else if (chL ("null")).isPrefixOf cs then some (JVal.null, cs.drop 4)
      else if (chL ("NaN")).isPrefixOf cs then some (JVal.num (chL ("NaN")), cs.drop 3)
      else if (chL ("Infinity")).isPrefixOf cs then
        some (JVal.num (chL ("Infinity")), cs.drop 8)
      else if (chL ("-Infinity")).isPrefixOf cs then
        some (JVal.num (chL ("-Infinity")), cs.drop 9)
      else (pNumber cs).map (fun p => (JVal.num p.1, p.2))

/-- Parse the inside of `[...]` right after the opening bracket. -/
def pElemsStart : Nat → List Char → Option (JVal × List Char)
  | 0, _ => none
  | fuel + 1, cs =>
    match skipJWs cs with
    | ']' :: rest => some (JVal.arr [], rest)
    | cs2 => pElems fuel cs2 []

/-- Parse the comma-separated elements of a non-empty array. -/
def pElems : Nat → List Char → List JVal → Option (JVal × List Char)
  | 0, _, _ => none
  | fuel + 1, cs, acc =>
    match pValue fuel cs with
    | none => none
    | some (v, rest) =>
      match skipJWs rest with
      | ',' :: r2 => pElems fuel r2 (acc ++ [v])
      | ']' :: r2 => some (JVal.arr (acc ++ [v]), r2)
      | _ => none

/-- Parse the inside of an object right after the opening brace. -/
def pMembersStart : Nat → List Char → Option (JVal × List Char)
  | 0, _ => none
  | fuel + 1, cs =>
    match skipJWs cs with
    | '\x7d' :: rest => some (JVal.obj [], rest)
    | cs2 => pMembers fuel cs2 []

/-- Parse the comma-separated members of a non-empty object. -/
def pMembers : Nat → List Char → List (List Char × JVal) → Option (JVal × List Char)
  | 0, _, _ => none
  | fuel + 1, cs, acc =>
    match skipJWs cs with
    | '"' :: r1 =>
      match pStringAux (r1.length + 1) r1 with
      | none => none
      | some (k, r2) =>
        match skipJWs r2 with
        | ':' :: r3 =>
          match pValue fuel r3 with
          | none => none
          | some (v, r4) =>
            match skipJWs r4 with
            | ',' :: r5 => pMembers fuel r5 (objInsert acc k v)
            | '\x7d' :: r5 => some (JVal.obj (objInsert acc k v), r5)
            | _ => none
        | _ => none
    | _ => none

end

/-- Model of Python `json.loads`: a single complete JSON value with
only whitespace around it, `none` on any decode error. -/
def jsonLoads (cs : List Char) : Option JVal :=
  match pValue (2 * cs.length + 4) cs with
  | some (v, rest) => if skipJWs rest = [] then some v else none
  | none => none

/-- Last-wins lookup is not needed: `objInsert` already keeps keys
unique, so plain first-match lookup models Python dict indexing. -/
def jLookup (members : List (List Char × JVal)) (k : List Char) : Option JVal :=
  match members with
  | [] => none
  | (k2, v) :: rest => if k2 = k then some v else jLookup rest k

/-- Python `k in d and isinstance(d, dict)`-style key test on a value. -/
def hasKeyB (v : JVal) (k : List Char) : Bool :=
  match v with
  | JVal.obj ms => (jLookup ms k).isSome
  | _ => false

/-! ## src/core/parser.py — clean_json_text

`clean_json_text` strips the text, removes a leading code-fence marker
with `re.sub(r"^```(json)?", "", text, flags=re.MULTILINE)` when the
text starts with one, removes a trailing marker with
`re.sub(r"```$", "", text, flags=re.MULTILINE)` when the text ends with
one, and strips again.  With `MULTILINE`, `^` matches at each line
start and `$` before each newline, and neither pattern can span a
newline, so each substitution acts independently on every line. -/

/-- Effect of `re.sub(r"^```(json)?", "", ·)` on one line: the greedy
optional group removes a `json` tag when present. -/
def sub1Line (l : List Char) : List Char :=
  if (chL ("```json")).isPrefixOf l then l.drop 7
  else if (chL ("```")).isPrefixOf l then l.drop 3
  else l

/-- Effect of `re.sub(r"```$", "", ·)` on one line. -/
def sub2Line (l : List Char) : List Char :=
  if (chL ("```")).isSuffixOf l then l.take (l.length - 3) else l

/-- Model of `clean_json_text` in src/core/parser.py. -/
def cleanJsonText (cs : List Char) : List Char :=
  let t := stripL cs
  let t1 :=
    if (chL ("```")).isPrefixOf t then unLines ((splitLines t).map sub1Line) else t
  let t2 :=
    if (chL ("```")).isSuffixOf t1 then unLines ((splitLines t1).map sub2Line) else t1
  stripL t2

/-! ## src/core/parser.py — parse_dialogue_regex_strict

The fallback scans the raw text with
`re.findall(r'"speaker"\s*:\s*"(Host [AB])".*?"text"\s*:\s*"(.*?)"', raw, re.DOTALL)`.
The scanner below implements exactly this pattern: `re.findall` yields
successive non-overlapping leftmost matches; the lazy `.*?` (with
DOTALL matching any character) stops at the earliest position where the
remainder `"text"\s*:\s*"(.*?)"` matches, and the lazy group `(.*?)"`
captures up to the first following quote.  Greedy `\s*` needs no
backtracking because no whitespace character can also match the `:` or
`"` that follows it. -/

/-- Python `\s` whitespace class (ASCII). -/
def isPyWs (c : Char) : Bool :=
  c = ' ' || c = '\t' || c = '\n' || c = '\r' || c = '\x0b' || c = '\x0c'

/-- Greedy `\s*`. -/
def skipPyWs (cs : List Char) : List Char := cs.dropWhile isPyWs

/-- Match a literal, returning the rest of the input. -/
def expectL (lit cs : List Char) : Option (List Char) :=
  if lit.isPrefixOf cs then some (cs.drop lit.length) else none

/-- The literal `"speaker"` of the fallback pattern. -/
def litSpeaker : List Char :=
  '"' :: 's' :: 'p' :: 'e' :: 'a' :: 'k' :: 'e' :: 'r' :: ['"']

/-- The literal `"text"` of the fallback pattern. -/
def litText : List Char := '"' :: 't' :: 'e' :: 'x' :: 't' :: ['"']

/-- The literal `Host ` inside the first capture group. -/
def litHost : List Char := 'H' :: 'o' :: 's' :: 't' :: [' ']

/-- The lazy group `(.*?)"`: capture up to the first quote. -/
def takeUntilQuote : List Char → Option (List Char × List Char)
  | [] => none
  | c :: rest =>
    if c = '"' then some ([], rest)
    else
      match takeUntilQuote rest with
      | some p => some (c :: p.1, p.2)
      | none => none

/-- Anchored attempt of `"text"\s*:\s*"` at the current position. -/
def tryTextKey (cs : List Char) : Option (List Char) :=
  match expectL litText cs with
  | none => none
  | some r1 =>
    match expectL [':'] (skipPyWs r1) with
    | none => none
    | some r3 => expectL ['"'] (skipPyWs r3)

/-- The lazy `.*?"text"\s*:\s*"(.*?)"` tail: try the key pattern at
each successive position (smallest skip first), as regex backtracking
of a lazy quantifier does. -/
def matchTail : List Char → Option (List Char × List Char)
  | [] => none
  | c :: cs2 =>
    match tryTextKey (c :: cs2) with
    | some rest =>
      match takeUntilQuote rest with
      | some p => some p
      | none => matchTail cs2
    | none => matchTail cs2

/-- Anchored attempt of the whole fallback pattern, returning the two
capture groups and the input after the match. -/
def matchAt (cs : List Char) : Option (List Char × List Char × List Char) :=
  match expectL litSpeaker cs with
  | none => none
  | some r1 =>
    match expectL [':'] (skipPyWs r1) with
    | none => none
    | some r3 =>
      match expectL ['"'] (skipPyWs r3) with
      | none => none
      | some r5 =>
        match expectL litHost r5 with
        | none => none
        | some r6 =>
          match r6 with
          | [] => none
          | c :: r7 =>
            if c = 'A' ∨ c = 'B' then
              match expectL ['"'] r7 with
              | none => none
              | some r8 => (matchTail r8).map (fun p => (litHost ++ [c], p.1, p.2))
            else none

/-- `re.findall` driver: leftmost non-overlapping matches.  Each step
either consumes a whole match or advances one character, so the fuel
`length + 1` used by `scanAll` is never exhausted. -/
def scanAllF : Nat → List Char → List (List Char × List Char)
  | 0, _ => []
  | fuel + 1, cs =>
    match cs with
    | [] => []
    | _ :: cs2 =>
      match matchAt cs with
      | some (s, t, rest) => (s, t) :: scanAllF fuel rest
      | none => scanAllF fuel cs2

/-- All matches of the fallback pattern in order of occurrence. -/
def scanAll (cs : List Char) : List (List Char × List Char) :=
  scanAllF (cs.length + 1) cs

/-- Model of `parse_dialogue_regex_strict` in src/core/parser.py: each
match becomes a dict with the two standard keys (returning the mapped
list is the same as returning `[]` when there is no match). -/
def parse_dialogue_regex_strict (raw : List Char) : List JVal :=
  (scanAll raw).map
    (fun p => JVal.obj [(chL ("speaker"), JVal.str p.1), (chL ("text"), JVal.str p.2)])

/-! ## src/core/parser.py — smart_parse_script -/

/-- The wrapper keys probed in order by `smart_parse_script`. -/
def wrapperKeys : List (List Char) :=
  [chL ("script"), chL ("dialogue"), chL ("content")]

/-- The unwrap loop: first listed key whose value is a list wins. -/
def unwrapLoop (ms : List (List Char × JVal)) : List (List Char) → JVal
  | [] => JVal.obj ms
  | k :: ks =>
    match jLookup ms k with
    | some (JVal.arr xs) => JVal.arr xs
    | _ => unwrapLoop ms ks

/-- `if isinstance(data, dict): for k in ['script','dialogue','content'] ...`. -/
def unwrapData (v : JVal) : JVal :=
  match v with
  | JVal.obj ms => unwrapLoop ms wrapperKeys
  | _ => v

/-- An element is kept when it is a dict with both a `speaker` and a
`text` key. -/
def isValidItem (v : JVal) : Bool :=
  match v with
  | JVal.obj ms => (jLookup ms (chL ("speaker"))).isSome && (jLookup ms (chL ("text"))).isSome
  | _ => false

/-- Model of `smart_parse_script` in src/core/parser.py.  Every raised
`ValueError` is caught by the surrounding `except`, which runs the
regex fallback on the raw (uncleaned) text. -/
def smart_parse_script (raw : List Char) : List JVal :=
  if raw.isEmpty then []
  else
    match jsonLoads (cleanJsonText raw) with
    | none => parse_dialogue_regex_strict raw
    | some v =>
      match unwrapData v with
      | JVal.arr items =>
        let valid := items.filter isValidItem
        if valid.isEmpty then parse_dialogue_regex_strict raw else valid
      | _ => parse_dialogue_regex_strict raw

/-- The (speaker, text) pair of each returned dict, as the pipeline
reads them with `line['speaker']` / `line['text']`. -/
def strOfKey (v : JVal) (k : List Char) : List Char :=
  match v with
  | JVal.obj ms =>
    match jLookup ms k with
    | some (JVal.str s) => s
    | _ => []
  | _ => []

/-- Ordered (speaker, text) projection of a parsed turn list. -/
def turnPairsOf (items : List JVal) : List (List Char × List Char) :=
  items.map (fun v => (strOfKey v (chL ("speaker")), strOfKey v (chL ("text"))))

/-! ## src/core/config.py -/

/-- Model of `PodcastConfig` (prompt constants are not needed by any
modelled operation and are omitted). -/
structure PodcastConfig where
  api_key : String := ""
  enable_audio_generation : Bool := true
  podcast_mode : String := "deep_dive"
  max_workers_jina : Nat := 2
  max_workers_llm : Nat := 5
  max_workers_tts : Nat := 5
  llm_model_name : String := "deepseek-ai/DeepSeek-V3.2"
  tts_model_name : String := "FunAudioLLM/CosyVoice2-0.5B"
  voice_name_host_a : String := "alex"
  voice_name_host_b : String := "claire"
  urls : List String := []

/-- `PodcastConfig.get_full_voice_id`. -/
def getFullVoiceId (cfg : PodcastConfig) (voice_name : String) : String :=
  if isInfixB [':'] voice_name.data then voice_name
  else cfg.tts_model_name ++ ":" ++ voice_name

/-- `PodcastConfig.voice_a_full`. -/
def voiceAFull (cfg : PodcastConfig) : String := getFullVoiceId cfg cfg.voice_name_host_a

/-- `PodcastConfig.voice_b_full`. -/
def voiceBFull (cfg : PodcastConfig) : String := getFullVoiceId cfg cfg.voice_name_host_b

/-- `PodcastConfig.validate`. -/
def validateConfig (cfg : PodcastConfig) : Bool × String :=
  if cfg.api_key.isEmpty || (stripL cfg.api_key.data).isEmpty then
    (false, "请输入 API Key")
  else if cfg.urls.isEmpty then (false, "请输入至少一个 URL")
  else (true, "")

/-! ## Remote calls: outcomes and observable events

Every `requests.get`/`requests.post` is modelled by an oracle giving
the outcome of each attempt.  The trace of events (one `attempt` per
issued request, one `sleep` per `time.sleep`) makes the retry behaviour
of each loop observable. -/

/-- Observable events of a retry loop. -/
inductive HttpEvent where
  | attempt (n : Nat) : HttpEvent
  | sleep (seconds : Nat) : HttpEvent
deriving DecidableEq, Repr

/-- Outcome of one attempt of an outbound request. -/
inductive ReqOutcome where
  | http (status : Nat) (body : List Char) : ReqOutcome
  | timeout : ReqOutcome
  | connError : ReqOutcome
  | exn : ReqOutcome
deriving DecidableEq, Repr

/-- Number of issued requests recorded in a trace. -/
def attemptsOf (evs : List HttpEvent) : Nat :=
  (evs.filter (fun e => match e with | HttpEvent.attempt _ => true | _ => false)).length

/-- The seconds of every `sleep` recorded in a trace. -/
def sleepsOf (evs : List HttpEvent) : List Nat :=
  evs.filterMap (fun e => match e with | HttpEvent.sleep s => some s | _ => none)

/-! ## src/core/fetcher.py — fetch_content_with_jina -/

/-- One iteration of the `for attempt in range(max_retries)` loop of
`fetch_content_with_jina`, recursing on the remaining attempts.  A 200
response with an empty body or containing `High volume` sleeps 2s and
retries; 429 sleeps `(attempt+1)*3` and retries; any other HTTP status
sleeps 2s and retries unless this is the last attempt, in which case
the loop breaks; timeout and connection errors sleep 2s and retry
except on the last attempt; any other exception sleeps 1s and falls to
the next iteration. -/
def fetchLoop (oracle : Nat → ReqOutcome) (maxRetries : Nat) :
    Nat → Nat → Option (List Char) × List HttpEvent
  | _, 0 => (none, [])
  | a, fuel + 1 =>
    let next := fun (evs : List HttpEvent) =>
      let r := fetchLoop oracle maxRetries (a + 1) fuel
      (r.1, evs ++ r.2)
    match oracle a with
    | ReqOutcome.http status body =>
      if status = 200 then
        if body.isEmpty then next [HttpEvent.attempt a, HttpEvent.sleep 2]
        else if isInfixB (chL ("High volume")) body then
          next [HttpEvent.attempt a, HttpEvent.sleep 2]
        else (some body, [HttpEvent.attempt a])
      else if status = 429 then
        next [HttpEvent.attempt a, HttpEvent.sleep ((a + 1) * 3)]
      else
        if a < maxRetries - 1 then next [HttpEvent.attempt a, HttpEvent.sleep 2]
        else (none, [HttpEvent.attempt a])
    | ReqOutcome.timeout =>
      if a < maxRetries - 1 then next [HttpEvent.attempt a, HttpEvent.sleep 2]
      else (none, [HttpEvent.attempt a])
    | ReqOutcome.connError =>
      if a < maxRetries - 1 then next [HttpEvent.attempt a, HttpEvent.sleep 2]
      else (none, [HttpEvent.attempt a])
    | ReqOutcome.exn => next [HttpEvent.attempt a, HttpEvent.sleep 1]

/-- Model of `fetch_content_with_jina` (default `max_retries=3`):
returns the fetched text, or `None` after the loop ends, together with
the observable attempt/sleep trace. -/
def fetch_content_with_jina (oracle : Nat → ReqOutcome) (maxRetries : Nat := 3) :
    Option (List Char) × List HttpEvent :=
  fetchLoop oracle maxRetries 0 maxRetries

/-! ## src/core/llm.py — call_llm_api -/

/-- Outcome of the single `requests.post` of `call_llm_api`: a 200
response either carries `choices[0].message.content` or has an
unexpected shape; every other status or exception yields `None`. -/
inductive LlmOutcome where
  | ok (content : List Char) : LlmOutcome
  | badShape : LlmOutcome
  | httpErr (status : Nat) : LlmOutcome
  | timeout : LlmOutcome
  | exn : LlmOutcome
deriving DecidableEq, Repr

/-- Model of `call_llm_api`: exactly one request is issued; there is no
retry loop of any kind in src/core/llm.py. -/
def call_llm_api (oracle : LlmOutcome) : Option (List Char) × List HttpEvent :=
  match oracle with
  | LlmOutcome.ok content => (some content, [HttpEvent.attempt 0])
  | LlmOutcome.badShape => (none, [HttpEvent.attempt 0])
  | LlmOutcome.httpErr _ => (none, [HttpEvent.attempt 0])
  | LlmOutcome.timeout => (none, [HttpEvent.attempt 0])
  | LlmOutcome.exn => (none, [HttpEvent.attempt 0])

/-! ## src/core/audio.py — generate_audio_segment -/

/-- Voice assignment of `generate_audio_segment` (lines 35-44):
case-insensitive substring match of `host a` / the configured Host-A
name, then `host b` / the configured Host-B name, else default to the
Host-A voice. -/
def selectVoice (cfg : PodcastConfig) (speaker : String) : String :=
  let spkLower := toLowerL speaker.data
  if isInfixB (chL ("host a")) spkLower
      || isInfixB (toLowerL cfg.voice_name_host_a.data) spkLower then
    voiceAFull cfg
  else if isInfixB (chL ("host b")) spkLower
      || isInfixB (toLowerL cfg.voice_name_host_b.data) spkLower then
    voiceBFull cfg
  else voiceAFull cfg

/-- Audio bytes are modelled as a list of byte values. -/
abbrev AudioBytes := List Nat

/-- Outcome of one TTS POST. -/
inductive TtsOutcome where
  | http (status : Nat) (content : AudioBytes) : TtsOutcome
  | timeout : TtsOutcome
  | connError : TtsOutcome
  | exn : TtsOutcome
deriving DecidableEq, Repr

/-- One iteration of the `for attempt in range(3)` loop of
`generate_audio_segment`: a 200 response with more than 100 bytes
succeeds, a smaller body records an error and falls to the next
iteration without sleeping; 429 sleeps `2 + attempt*2` and retries; 400,
401 and 404 break immediately; other statuses sleep 1s unless on the
last attempt; timeout and connection errors sleep 1s except on the last
attempt; any other exception breaks. -/
def ttsLoop (oracle : Nat → TtsOutcome) :
    Nat → Nat → String → (Option AudioBytes × String) × List HttpEvent
  | _, 0, lastError => ((none, lastError), [])
  | a, fuel + 1, lastError =>
    let next := fun (evs : List HttpEvent) (err : String) =>
      let r := ttsLoop oracle (a + 1) fuel err
      (r.1, evs ++ r.2)
    match oracle a with
    | TtsOutcome.http status content =>
      if status = 200 then
        if !content.isEmpty && content.length > 100 then
          ((some content, lastError), [HttpEvent.attempt a])
        else next [HttpEvent.attempt a] "返回内容异常"
      else if status = 429 then
        next [HttpEvent.attempt a, HttpEvent.sleep (2 + a * 2)] "API 限流"
      else if status = 400 then ((none, "400 Bad Request"), [HttpEvent.attempt a])
      else if status = 401 then ((none, "API Key 无效 (401)"), [HttpEvent.attempt a])
      else if status = 404 then ((none, "404 Not Found"), [HttpEvent.attempt a])
      else
        if a < 2 then next [HttpEvent.attempt a, HttpEvent.sleep 1] ("HTTP " ++ toString status)
        else ((none, "HTTP " ++ toString status), [HttpEvent.attempt a])
    | TtsOutcome.timeout =>
      if a < 2 then next [HttpEvent.attempt a, HttpEvent.sleep 1] "请求超时"
      else ((none, "请求超时"), [HttpEvent.attempt a])
    | TtsOutcome.connError =>
      if a < 2 then next [HttpEvent.attempt a, HttpEvent.sleep 1] "连接错误"
      else ((none, "连接错误"), [HttpEvent.attempt a])
    | TtsOutcome.exn => ((none, "异常"), [HttpEvent.attempt a])

/-- Model of `generate_audio_segment`: empty or whitespace-only text
short-circuits before any request; otherwise the retry loop runs with
the voice chosen by `selectVoice` (the oracle takes the requested voice
id, so the voice actually used is observable). -/
def generate_audio_segment (cfg : PodcastConfig) (index : Nat) (text : String)
    (speaker : String) (oracle : String → Nat → TtsOutcome) :
    (Nat × Option AudioBytes × Option String) × List HttpEvent :=
  if text.isEmpty || (stripL text.data).isEmpty then
    ((index, none, some "文本为空"), [])
  else
    let voice := selectVoice cfg speaker
    let r := ttsLoop (oracle voice) 0 3 ""
    match r.1.1 with
    | some content => ((index, some content, none), r.2)
    | none => ((index, none, some r.1.2), r.2)

/-! ## src/core/audio.py — generate_audio_for_script

Decoded audio is modelled as a list of samples; decoding an MP3 byte
payload (`AudioSegment.from_file`) is an oracle that may fail, in which
case the segment is skipped (the `except` at line 240).  Python
`list.sort` is a stable sort, and a stable sort by key is unique, so
the stable `insertionSort` models `results.sort(key=lambda x: x[0])`
exactly. -/

/-- A parsed dialogue line (`{"speaker": ..., "text": ...}`). -/
structure Turn where
  speaker : String
  text : String
deriving DecidableEq, Repr

/-- `AudioSegment.silent(duration=400)` inserted after every turn. -/
def pauseSegment : List Int := List.replicate 400 0

/-- The sort at line 228: `results.sort(key=lambda x: x[0])`. -/
def sortResults (results : List (Nat × AudioBytes)) : List (Nat × AudioBytes) :=
  List.insertionSort (fun x y => x.1 ≤ y.1) results

/-- The assembly tail of `generate_audio_for_script` (lines 227-246):
sort by original segment index, decode each payload, append with a
fixed pause, skipping chunks that fail to decode. -/
def mergeResultsTrack (decodeO : AudioBytes → Option (List Int))
    (results : List (Nat × AudioBytes)) : List Int :=
  (sortResults results).foldl
    (fun track r =>
      match decodeO r.2 with
      | some seg => track ++ seg ++ pauseSegment
      | none => track)
    []

/-- The filter at lines 181-187: keep `(i, txt, speaker)` for lines
with non-empty, non-whitespace text, indexed by script position. -/
def validSegments (script : List Turn) : List (Nat × String × String) :=
  script.enum.filterMap
    (fun p =>
      if p.2.text.isEmpty || (stripL p.2.text.data).isEmpty then none
      else some (p.1, p.2.text, p.2.speaker))

/-- The sequential synthesis loop (lines 192-212): one
`generate_audio_segment` call per valid segment, keeping `(idx, bytes)`
for successes. -/
def ttsResults (cfg : PodcastConfig) (script : List Turn)
    (oracle : Nat → String → Nat → TtsOutcome) : List (Nat × AudioBytes) :=
  (validSegments script).filterMap
    (fun s =>
      match (generate_audio_segment cfg s.1 s.2.1 s.2.2 (oracle s.1)).1 with
      | (idx, some bytes, _) => some (idx, bytes)
      | _ => none)

/-- Model of `generate_audio_for_script`: empty API key returns the
empty track before any synthesis; otherwise synthesize sequentially and
assemble. -/
def generate_audio_for_script (cfg : PodcastConfig) (script : List Turn)
    (oracle : Nat → String → Nat → TtsOutcome)
    (decodeO : AudioBytes → Option (List Int)) : List Int :=
  if cfg.api_key.isEmpty then []
  else mergeResultsTrack decodeO (ttsResults cfg script oracle)

/-! ## src/core/pipeline.py — PodcastPipeline.run

Stage 1 and Stage 2 submit one future per item to a thread pool and
collect results with `as_completed`; the nondeterministic completion
order is the explicit `fetchOrder`/`analyzeOrder` parameter (a
permutation of the item positions).  `generate_unified_script` (one
LLM call followed by `smart_parse_script`) is the `scriptO` oracle:
`None` on failure, otherwise the non-empty parsed dialogue list.

Line 210 reads
`generated_title, script_json = generate_unified_script(...)`,
but `generate_unified_script` in src/core/llm.py returns a single
value (`None` or the parsed list), so the tuple unpacking raises:
`TypeError` for `None`, `ValueError` for a list whose length is not 2,
and for a 2-line script the two targets are bound to the two dicts,
the `if not script_json` guard passes (a non-empty dict is truthy) and
the transcript loop `for line in script_json` then iterates the keys
of a dict, so `line['speaker']` indexes a `str` with a `str` and
raises `TypeError`.  An uncaught exception is `Except.error`. -/

/-- Uncaught Python exceptions escaping `run`. -/
inductive PyError where
  | typeError (msg : String) : PyError
  | valueError (msg : String) : PyError
deriving DecidableEq, Repr

/-- The `stats` dict of `run`. -/
structure RunStats where
  total_urls : Nat := 0
  fetched : Nat := 0
  analyzed : Nat := 0
  script_lines : Nat := 0
  audio_segments : Nat := 0
deriving DecidableEq, Repr

/-- `PipelineResult` of src/core/pipeline.py. -/
structure PipelineResult where
  success : Bool
  title : String := ""
  script_text : String := ""
  audio_data : Option AudioBytes := none
  error_message : String := ""
  stats : RunStats := {}
deriving DecidableEq, Repr

/-- Stage 1 collection: each completed future with non-empty content is
appended in completion order (`fetchO i` is the result of
`fetch_content_with_jina` for URL number `i`). -/
def collectFetched (urls : List String) (fetchO : Nat → Option (List Char))
    (order : List Nat) : List (Nat × String × List Char) :=
  order.filterMap
    (fun i =>
      match urls[i]? with
      | some u => (fetchO i).map (fun c => (i, u, c))
      | none => none)

/-- Stage 2 collection: one `analyze_article` future per fetched item,
collected in completion order, keeping non-`None` analyses. -/
def collectAnalyses (fetched : List (Nat × String × List Char))
    (analyzeO : Nat → String → List Char → Option (List Char))
    (order : List Nat) : List (Nat × String × List Char) :=
  order.filterMap
    (fun j =>
      match fetched[j]? with
      | some (i, u, c) => (analyzeO i u c).map (fun an => (i, u, an))
      | none => none)

/-- The argument Stage 3 hands to `generate_unified_script`: the
collected analyses after `analyses.sort(key=lambda x: x[0])`
(line 208). -/
def analysesForScript (cfg : PodcastConfig) (fetchO : Nat → Option (List Char))
    (fetchOrder : List Nat)
    (analyzeO : Nat → String → List Char → Option (List Char))
    (analyzeOrder : List Nat) : List (Nat × String × List Char) :=
  List.insertionSort (fun x y => x.1 ≤ y.1)
    (collectAnalyses (collectFetched cfg.urls fetchO fetchOrder) analyzeO analyzeOrder)

/-- Model of `PodcastPipeline.run`. -/
def runPipeline (cfg : PodcastConfig) (fetchO : Nat → Option (List Char))
    (fetchOrder : List Nat)
    (analyzeO : Nat → String → List Char → Option (List Char))
    (analyzeOrder : List Nat)
    (scriptO : List (Nat × String × List Char) → Option (List Turn)) :
    Except PyError PipelineResult :=
  let v := validateConfig cfg
  if !v.1 then Except.ok { success := false, error_message := v.2 }
  else
    let urls := cfg.urls
    let fetched := collectFetched urls fetchO fetchOrder
    let stats1 : RunStats := { total_urls := urls.length, fetched := fetched.length }
    if fetched.isEmpty then
      Except.ok { success := false, error_message := "所有链接抓取失败", stats := stats1 }
    else
      let analyses := collectAnalyses fetched analyzeO analyzeOrder
      let stats2 : RunStats := { stats1 with analyzed := analyses.length }
      if analyses.isEmpty then
        Except.ok { success := false, error_message := "所有文章分析失败", stats := stats2 }
      else
        match scriptO (analysesForScript cfg fetchO fetchOrder analyzeO analyzeOrder) with
        | none => Except.error (PyError.typeError "cannot unpack non-iterable NoneType object")
        | some script =>
          if script.length < 2 then
            Except.error (PyError.valueError "not enough values to unpack (expected 2, got 1)")
          else if script.length = 2 then
            Except.error (PyError.typeError "string indices must be integers")
          else
            Except.error (PyError.valueError "too many values to unpack (expected 2)")

/-! ## Derived notions used by the theorems -/

/-- The strict decode path applied after a successful decode: unwrap a
wrapper object and keep the elements with both keys (the body of the
`try` block of `smart_parse_script` after `json.loads`). -/
def strictItemsOf (v : JVal) : List JVal :=
  match unwrapData v with
  | JVal.arr items => items.filter isValidItem
  | _ => []

/-- No double-quote character occurs. -/
def quoteFreeB (l : List Char) : Bool := l.all (fun c => decide (c ≠ '"'))

/-- A speaker accepted by the fallback pattern group `(Host [AB])`. -/
inductive HostSpk where
  | A : HostSpk
  | B : HostSpk
deriving DecidableEq, Repr

/-- The speaker string of a `HostSpk`. -/
def spkChars : HostSpk → List Char
  | HostSpk.A => litHost ++ ['A']
  | HostSpk.B => litHost ++ ['B']

/-- One `"speaker": "Host X", "text": "..."` fragment as it occurs in
the raw script text. -/
def snippet (spk : HostSpk) (txt : List Char) : List Char :=
  litSpeaker ++ ':' :: ' ' :: '"' ::
    (spkChars spk ++ '"' :: ',' :: ' ' ::
      (litText ++ ':' :: ' ' :: '"' :: (txt ++ ['"'])))

/-- A malformed raw text: leading glue, then for every turn its
fragment followed by arbitrary glue (the glue plays the role of broken
JSON punctuation). -/
def renderLoose (g0 : List Char) (ps : List (HostSpk × List Char × List Char)) :
    List Char :=
  g0 ++ ps.foldr (fun p acc => snippet p.1 p.2.1 ++ (p.2.2 ++ acc)) []

/-- The decoded JSON object of one turn of the well-formed equivalent. -/
def turnObj (spk : HostSpk) (txt : List Char) : JVal :=
  JVal.obj [(chL ("speaker"), JVal.str (spkChars spk)), (chL ("text"), JVal.str txt)]

/-- Wrap a text in a fenced code block with the given tag. -/
def fenceWith (tag : List Char) (T : List Char) : List Char :=
  chL ("```") ++ tag ++ '\n' :: T ++ '\n' :: chL ("```")

/-- ```` ```json ```` fence. -/
def fenceJson (T : List Char) : List Char := fenceWith (chL ("json")) T

/-- Untagged ```` ``` ```` fence. -/
def fenceBare (T : List Char) : List Char := fenceWith [] T

/-- A valid configuration with two source URLs, used as the concrete
run input of the pipeline theorems. -/
def cfgEx : PodcastConfig := { api_key := "k", urls := ["u1", "u2"] }

instance instKeyLeTotal (β : Type) : IsTotal (Nat × β) (fun x y => x.1 ≤ y.1) :=
  ⟨fun a b => Nat.le_total a.1 b.1⟩

instance instKeyLeTrans (β : Type) : IsTrans (Nat × β) (fun x y => x.1 ≤ y.1) :=
  ⟨fun _ _ _ h1 h2 => Nat.le_trans h1 h2⟩

instance instKeyLtAntisymm (β : Type) : IsAntisymm (Nat × β) (fun x y => x.1 < y.1) :=
  ⟨fun _ _ h1 h2 => absurd (Nat.lt_trans h1 h2) (Nat.lt_irrefl _)⟩

/-! ## Theorems -/

/-- Claim C1: every function that `PodcastPipeline.run` invokes for the
audio stages would be defined in the module it is imported from — in
particular `generate_audio_parallel` and `merge_audio_segments`,
imported from `.audio`.  This is FALSE of the code: src/core/audio.py
defines neither name, so `from .audio import generate_audio_parallel,
merge_audio_segments` raises `ImportError` as soon as
src/core/pipeline.py is imported, and `run` is not total (it is not
even loadable) when audio generation is enabled. -/
theorem c1_audio_import_names_missing :
    audioModuleDefs.contains "generate_audio_parallel" = false
    ∧ audioModuleDefs.contains "merge_audio_segments" = false
    ∧ pipelineAudioImportNames.all (fun n => audioModuleDefs.contains n) = false := by
  refine ⟨by decide, by decide, by decide⟩

/-- Claim C2: a stage among Fetching, Analyzing or Writing ending with
zero surviving items should always make `run` return a failed
`PipelineResult` with a non-empty message and stop.  The Fetching and
Analyzing branches do behave exactly so — the first conjunct shows the
all-fetches-fail run returning `success = false` with message
`所有链接抓取失败` and `stats.analyzed = 0`, with no analysis performed —
but the Writing branch does not: when `generate_unified_script` returns
`None` (zero surviving script), line 210 unpacks the `None` into
`generated_title, script_json` and `run` raises `TypeError` instead of
returning the prepared failure result (second conjunct). -/
theorem c2_stage_exhaustion_behaviour :
    runPipeline cfgEx (fun _ => none) [0, 1] (fun _ _ _ => none) [] (fun _ => none)
      = Except.ok { success := false, error_message := "所有链接抓取失败",
                    stats := { total_urls := 2 } }
    ∧ runPipeline cfgEx (fun _ => some (chL ("article"))) [0, 1]
        (fun _ _ _ => some (chL ("analysis"))) [0, 1] (fun _ => none)
      = Except.error (PyError.typeError "cannot unpack non-iterable NoneType object") := by
  exact ⟨rfl, rfl⟩

/-- Claim C3: a run reaching the TTS stage with a non-empty parsed
script should survive TTS/assembly failures with `success = true` and
the full transcript.  FALSE of the code: no run ever reaches the TTS
stage, because the tuple unpacking of `generate_unified_script`'s
single return value at line 210 raises on every successful script —
`ValueError` when the parsed script has more (or fewer) than two lines,
and for exactly two lines the dict bound to `script_json` makes the
transcript loop raise `TypeError` — before Stage 4 starts (and
independently, the Stage-4 names do not even import, see C1). -/
theorem c3_tts_stage_unreachable :
    runPipeline cfgEx (fun _ => some (chL ("article"))) [0, 1]
        (fun _ _ _ => some (chL ("analysis"))) [0, 1]
        (fun _ => some [Turn.mk "Host A" "a", Turn.mk "Host B" "b", Turn.mk "Host A" "c"])
      = Except.error (PyError.valueError "too many values to unpack (expected 2)")
    ∧ runPipeline cfgEx (fun _ => some (chL ("article"))) [0, 1]
        (fun _ _ _ => some (chL ("analysis"))) [0, 1]
        (fun _ => some [Turn.mk "Host A" "a", Turn.mk "Host B" "b"])
      = Except.error (PyError.typeError "string indices must be integers") := by
  exact ⟨rfl, rfl⟩

/-- Claim C4 counterexample: a non-transient 404 response does NOT
terminate the fetch attempt loop — `fetch_content_with_jina` issues a
second attempt (and a third) after receiving 404, because its `else`
branch retries every non-200/429 status. -/
theorem c4_counterexample :
    (fetch_content_with_jina (fun _ => ReqOutcome.http 404 (chL ("nf")))).1 = none
    ∧ ¬ ((fetch_content_with_jina (fun _ => ReqOutcome.http 404 (chL ("nf")))).2.count
          (HttpEvent.attempt 1) = 0) := by
  exact ⟨rfl, by decide⟩

/-- Claim C4 (amended): a 400/401/404 response terminates the attempt
loop immediately for the TTS stage (single attempt, absent result), and
the LLM stage issues exactly one request for every outcome; the fetch
stage instead retries 400/401/404 like any other HTTP error, exhausting
its 3-attempt budget before surfacing the absent result. -/
theorem c4_amended :
    (∀ (oracle : String → Nat → TtsOutcome) (cfg : PodcastConfig) (idx : Nat)
        (text speaker : String) (s : Nat) (b : AudioBytes),
      (text.isEmpty || (stripL text.data).isEmpty) = false →
      (s = 400 ∨ s = 401 ∨ s = 404) →
      oracle (selectVoice cfg speaker) 0 = TtsOutcome.http s b →
      (generate_audio_segment cfg idx text speaker oracle).1.2.1 = none
      ∧ (generate_audio_segment cfg idx text speaker oracle).2 = [HttpEvent.attempt 0])
    ∧ (∀ o : LlmOutcome, (call_llm_api o).2 = [HttpEvent.attempt 0])
    ∧ (∀ oracle : Nat → ReqOutcome, (∀ a, ∃ b, oracle a = ReqOutcome.http 404 b) →
        (fetch_content_with_jina oracle).1 = none
        ∧ attemptsOf (fetch_content_with_jina oracle).2 = 3) := by
  refine ⟨?_, ?_, ?_⟩
  · intro oracle cfg idx text speaker s b htext hs horacle
    rcases hs with rfl | rfl | rfl <;>
      simp [generate_audio_segment, htext, ttsLoop, horacle]
  · intro o
    cases o <;> rfl
  · intro oracle h
    obtain ⟨b0, h0⟩ := h 0
    obtain ⟨b1, h1⟩ := h 1
    obtain ⟨b2, h2⟩ := h 2
    constructor <;>
      simp [fetch_content_with_jina, fetchLoop, h0, h1, h2, attemptsOf]

/-- Claim C4 amended, applied at concrete inputs: a 400 TTS response
and an all-404 fetch oracle. -/
theorem c4_amended_witness :
    (generate_audio_segment cfgEx 0 "hi" "Host A" (fun _ _ => TtsOutcome.http 400 [])).2
      = [HttpEvent.attempt 0]
    ∧ attemptsOf (fetch_content_with_jina (fun _ => ReqOutcome.http 404 (chL ("nf")))).2 = 3 :=
  ⟨(c4_amended.1 (fun _ _ => TtsOutcome.http 400 []) cfgEx 0 "hi" "Host A" 400 []
      (by decide) (Or.inl rfl) rfl).2,
   (c4_amended.2.2 (fun _ => ReqOutcome.http 404 (chL ("nf")))
      (fun _ => ⟨chL ("nf"), rfl⟩)).2⟩

/-- Claim C5 counterexample: the LLM stage does not retry a transient
rate-limit (429) signal up to an attempt budget of 3 — `call_llm_api`
has no retry loop at all, so a 429 produces a single attempt and an
absent result. -/
theorem c5_counterexample :
    (call_llm_api (LlmOutcome.httpErr 429)).1 = none
    ∧ attemptsOf (call_llm_api (LlmOutcome.httpErr 429)).2 = 1
    ∧ ¬ (2 ≤ attemptsOf (call_llm_api (LlmOutcome.httpErr 429)).2) := by
  exact ⟨rfl, rfl, by decide⟩

/-- Claim C5 (amended): the fetch and TTS stages retry every transient
failure (timeout, connection error, 429) up to the 3-attempt budget and
then surface an absent result; on rate-limit the waits before the next
attempt grow strictly with the attempt number (3,6,9 seconds for fetch;
2,4,6 for TTS); the LLM stage issues exactly one attempt and treats
every failure as immediately terminal. -/
theorem c5_amended :
    (∀ oracle : Nat → ReqOutcome,
      (∀ a, a < 3 → oracle a = ReqOutcome.timeout ∨ oracle a = ReqOutcome.connError
        ∨ ∃ b, oracle a = ReqOutcome.http 429 b) →
      (fetch_content_with_jina oracle).1 = none
      ∧ attemptsOf (fetch_content_with_jina oracle).2 = 3)
    ∧ (∀ oracle : Nat → TtsOutcome,
      (∀ a, a < 3 → oracle a = TtsOutcome.timeout ∨ oracle a = TtsOutcome.connError
        ∨ ∃ b, oracle a = TtsOutcome.http 429 b) →
      (ttsLoop oracle 0 3 "").1.1 = none
      ∧ attemptsOf (ttsLoop oracle 0 3 "").2 = 3)
    ∧ (sleepsOf (fetch_content_with_jina (fun _ => ReqOutcome.http 429 [])).2 = [3, 6, 9]
        ∧ List.Pairwise (fun x y => x < y) [3, 6, 9])
    ∧ (sleepsOf (ttsLoop (fun _ => TtsOutcome.http 429 []) 0 3 "").2 = [2, 4, 6]
        ∧ List.Pairwise (fun x y => x < y) [2, 4, 6])
    ∧ (∀ o : LlmOutcome, attemptsOf (call_llm_api o).2 = 1) := by
  refine ⟨?_, ?_, ⟨by decide, by decide⟩, ⟨by decide, by decide⟩, ?_⟩
  · intro oracle h
    rcases h 0 (by decide) with h0 | h0 | ⟨b0, h0⟩ <;>
      rcases h 1 (by decide) with h1 | h1 | ⟨b1, h1⟩ <;>
        rcases h 2 (by decide) with h2 | h2 | ⟨b2, h2⟩ <;>
          constructor <;>
            simp [fetch_content_with_jina, fetchLoop, h0, h1, h2, attemptsOf]
  · intro oracle h
    rcases h 0 (by decide) with h0 | h0 | ⟨b0, h0⟩ <;>
      rcases h 1 (by decide) with h1 | h1 | ⟨b1, h1⟩ <;>
        rcases h 2 (by decide) with h2 | h2 | ⟨b2, h2⟩ <;>
          constructor <;>
            simp [ttsLoop, h0, h1, h2, attemptsOf]
  · intro o
    cases o <;> rfl

/-- Claim C5 amended, applied at concrete transient oracles. -/
theorem c5_amended_witness :
    attemptsOf (fetch_content_with_jina (fun _ => ReqOutcome.timeout)).2 = 3
    ∧ attemptsOf (ttsLoop (fun _ => TtsOutcome.connError) 0 3 "").2 = 3 :=
  ⟨(c5_amended.1 (fun _ => ReqOutcome.timeout) (fun _ _ => Or.inl rfl)).2,
   (c5_amended.2.1 (fun _ => TtsOutcome.connError) (fun _ _ => Or.inr (Or.inl rfl))).2⟩

/-- Claim C10: a dialogue turn whose speaker matches neither host
identifier under case-insensitive substring matching is synthesized
with the Host-A voice and is not dropped: `generate_audio_segment`
sends the request with `voice_a_full` and returns the synthesized
audio. -/
theorem c10_unknown_speaker_defaults_to_voice_a :
    ∀ (cfg : PodcastConfig) (idx : Nat) (text speaker : String)
      (oracle : String → Nat → TtsOutcome) (body : AudioBytes),
      (isInfixB (chL ("host a")) (toLowerL speaker.data)
        || isInfixB (toLowerL cfg.voice_name_host_a.data) (toLowerL speaker.data)) = false →
      (isInfixB (chL ("host b")) (toLowerL speaker.data)
        || isInfixB (toLowerL cfg.voice_name_host_b.data) (toLowerL speaker.data)) = false →
      (text.isEmpty || (stripL text.data).isEmpty) = false →
      oracle (voiceAFull cfg) 0 = TtsOutcome.http 200 body →
      body.isEmpty = false → 100 < body.length →
      selectVoice cfg speaker = voiceAFull cfg
      ∧ generate_audio_segment cfg idx text speaker oracle
          = ((idx, some body, none), [HttpEvent.attempt 0]) := by
  intro cfg idx text speaker oracle body hA hB htext horacle hne hlen
  have hsel : selectVoice cfg speaker = voiceAFull cfg := by
    simp [selectVoice, hA, hB]
  refine ⟨hsel, ?_⟩
  simp [generate_audio_segment, htext, hsel, ttsLoop, horacle, hne, hlen]

set_option maxRecDepth 4000 in
/-- Claim C10 applied to the unrecognized speaker `Narrator` with the
default configured host names. -/
theorem c10_witness :
    generate_audio_segment cfgEx 0 "hi" "Narrator"
        (fun _ _ => TtsOutcome.http 200 (List.replicate 200 7))
      = ((0, some (List.replicate 200 7), none), [HttpEvent.attempt 0]) :=
  (c10_unknown_speaker_defaults_to_voice_a cfgEx 0 "hi" "Narrator"
    (fun _ _ => TtsOutcome.http 200 (List.replicate 200 7)) (List.replicate 200 7)
    (by decide) (by decide) (by decide) rfl (by decide) (by decide)).2

/-- A stable sort by a `Nat` key is determined by the multiset of
entries when the keys are pairwise distinct: any two permutations of
the same entries sort to the same list. -/
theorem insertionSortKey_eq_of_perm {β : Type} {l₁ l₂ : List (Nat × β)}
    (hp : l₁.Perm l₂) (hn : (l₁.map Prod.fst).Nodup) :
    List.insertionSort (fun x y => x.1 ≤ y.1) l₁
      = List.insertionSort (fun x y => x.1 ≤ y.1) l₂ := by
  have ps₁ := List.perm_insertionSort (fun x y => x.1 ≤ y.1) l₁
  have ps₂ := List.perm_insertionSort (fun x y => x.1 ≤ y.1) l₂
  have hperm : (List.insertionSort (fun x y => x.1 ≤ y.1) l₁).Perm
      (List.insertionSort (fun x y => x.1 ≤ y.1) l₂) :=
    ps₁.trans (hp.trans ps₂.symm)
  have hs₁ := List.sorted_insertionSort (fun x y => x.1 ≤ y.1) l₁
  have hs₂ := List.sorted_insertionSort (fun x y => x.1 ≤ y.1) l₂
  have hn₁ : ((List.insertionSort (fun x y => x.1 ≤ y.1) l₁).map Prod.fst).Nodup :=
    ((ps₁.map Prod.fst).nodup_iff).mpr hn
  have hn₂ : ((List.insertionSort (fun x y => x.1 ≤ y.1) l₂).map Prod.fst).Nodup :=
    ((ps₂.map Prod.fst).nodup_iff).mpr (((hp.map Prod.fst).nodup_iff).mp hn)
  have strict : ∀ l : List (Nat × β), List.Sorted (fun x y => x.1 ≤ y.1) l →
      (l.map Prod.fst).Nodup → List.Sorted (fun x y => x.1 < y.1) l := by
    intro l hs hnd
    have hne : l.Pairwise (fun a b => a.1 ≠ b.1) := List.pairwise_map.mp hnd
    exact (hs.and hne).imp (fun h => Nat.lt_of_le_of_ne h.1 h.2)
  exact List.eq_of_perm_of_sorted hperm (strict _ hs₁ hn₁) (strict _ hs₂ hn₂)

/-- Claim C6: audio assembly concatenates chunks by non-decreasing turn
index (first conjunct), the assembled track is invariant under any
permutation of a chunk set with distinct turn indices (second
conjunct), and the analyses handed to the single script-writing LLM
call are sorted ascending by original URL index no matter in which
order the parallel fetch/analysis futures completed (third conjunct). -/
theorem c6_ordered_assembly :
    (∀ results : List (Nat × AudioBytes),
        List.Sorted (fun x y => x.1 ≤ y.1) (sortResults results))
    ∧ (∀ (decodeO : AudioBytes → Option (List Int)) (l₁ l₂ : List (Nat × AudioBytes)),
        l₁.Perm l₂ → (l₁.map Prod.fst).Nodup →
        mergeResultsTrack decodeO l₁ = mergeResultsTrack decodeO l₂)
    ∧ (∀ (cfg : PodcastConfig) (fetchO : Nat → Option (List Char)) (fetchOrder : List Nat)
        (analyzeO : Nat → String → List Char → Option (List Char)) (analyzeOrder : List Nat),
        List.Sorted (fun x y => x.1 ≤ y.1)
          (analysesForScript cfg fetchO fetchOrder analyzeO analyzeOrder)) := by
  refine ⟨?_, ?_, ?_⟩
  · intro results
    exact List.sorted_insertionSort _ _
  · intro decodeO l₁ l₂ hp hn
    unfold mergeResultsTrack sortResults
    rw [insertionSortKey_eq_of_perm hp hn]
  · intro cfg fetchO fetchOrder analyzeO analyzeOrder
    exact List.sorted_insertionSort _ _

/-- Claim C6 applied to a concrete two-chunk set listed in two
different orders. -/
theorem c6_witness :
    mergeResultsTrack (fun b => some (b.map (fun n => (n : Int)))) [(1, [5]), (0, [9])]
      = mergeResultsTrack (fun b => some (b.map (fun n => (n : Int)))) [(0, [9]), (1, [5])]
    ∧ List.Sorted (fun x y => x.1 ≤ y.1) (sortResults [(1, [5]), (0, [9])]) :=
  ⟨c6_ordered_assembly.2.1 (fun b => some (b.map (fun n => (n : Int))))
      [(1, [5]), (0, [9])] [(0, [9]), (1, [5])] (List.Perm.swap _ _ _) (by decide),
   c6_ordered_assembly.1 [(1, [5]), (0, [9])]⟩

/-- When the cleaned text strictly decodes to a list with at least one
valid element, `smart_parse_script` returns exactly the both-keys
filter of the decoded list (the strict path, no fallback). -/
theorem smartParse_eq_filter (T : List Char) (items : List JVal)
    (hload : jsonLoads (cleanJsonText T) = some (JVal.arr items))
    (hvalid : (items.filter isValidItem).isEmpty = false) :
    smart_parse_script T = items.filter isValidItem := by
  cases T with
  | nil =>
    have hnone : jsonLoads (cleanJsonText []) = none := rfl
    rw [hnone] at hload
    exact Option.noConfusion hload
  | cons c cs =>
    simp [smart_parse_script, hload, unwrapData, hvalid]

/-- Claim C9: after a successful strict decode, a turn with both keys
is kept whatever its speaker value is, and a turn without a `text` key
is dropped; the returned list is exactly the both-keys filter of the
decoded list. -/
theorem c9_validation_keeps_speaker_drops_missing_text :
    ∀ (T : List Char) (items : List JVal),
      jsonLoads (cleanJsonText T) = some (JVal.arr items) →
      (items.filter isValidItem).isEmpty = false →
      smart_parse_script T = items.filter isValidItem
      ∧ (∀ it ∈ items, isValidItem it = true → it ∈ smart_parse_script T)
      ∧ (∀ it : JVal, hasKeyB it (chL ("text")) = false → it ∉ smart_parse_script T) := by
  intro T items hload hvalid
  have main : smart_parse_script T = items.filter isValidItem :=
    smartParse_eq_filter T items hload hvalid
  refine ⟨main, ?_, ?_⟩
  · intro it hmem hval
    rw [main]
    exact List.mem_filter.mpr ⟨hmem, hval⟩
  · intro it hkey hmem
    rw [main] at hmem
    have hval : isValidItem it = true := (List.mem_filter.mp hmem).2
    cases it with
    | obj ms =>
      have : (jLookup ms (chL ("text"))).isSome = true := by
        have := hval
        simp [isValidItem] at this
        exact this.2
      simp [hasKeyB] at hkey
      rw [hkey] at this
      exact Bool.noConfusion this
    | null => exact Bool.noConfusion hval
    | bool b => exact Bool.noConfusion hval
    | num l => exact Bool.noConfusion hval
    | str s => exact Bool.noConfusion hval
    | arr xs => exact Bool.noConfusion hval

/-- Claim C9 applied to a concrete decode: the `Narrator` turn (speaker
outside the host set) is kept, the turn missing `text` is dropped. -/
theorem c9_witness :
    smart_parse_script
        (chL ("[\x7b\"speaker\": \"Narrator\", \"text\": \"hi\"\x7d, \x7b\"speaker\": \"Host A\"\x7d]"))
      = [JVal.obj [(chL ("speaker"), JVal.str (chL ("Narrator"))),
                   (chL ("text"), JVal.str (chL ("hi")))]]
    ∧ JVal.obj [(chL ("speaker"), JVal.str (chL ("Host A")))]
        ∉ smart_parse_script
            (chL ("[\x7b\"speaker\": \"Narrator\", \"text\": \"hi\"\x7d, \x7b\"speaker\": \"Host A\"\x7d]")) :=
  ⟨(c9_validation_keeps_speaker_drops_missing_text
      (chL ("[\x7b\"speaker\": \"Narrator\", \"text\": \"hi\"\x7d, \x7b\"speaker\": \"Host A\"\x7d]"))
      [JVal.obj [(chL ("speaker"), JVal.str (chL ("Narrator"))),
                 (chL ("text"), JVal.str (chL ("hi")))],
       JVal.obj [(chL ("speaker"), JVal.str (chL ("Host A")))]]
      rfl rfl).1,
   (c9_validation_keeps_speaker_drops_missing_text
      (chL ("[\x7b\"speaker\": \"Narrator\", \"text\": \"hi\"\x7d, \x7b\"speaker\": \"Host A\"\x7d]"))
      [JVal.obj [(chL ("speaker"), JVal.str (chL ("Narrator"))),
                 (chL ("text"), JVal.str (chL ("hi")))],
       JVal.obj [(chL ("speaker"), JVal.str (chL ("Host A")))]]
      rfl rfl).2.2
     (JVal.obj [(chL ("speaker"), JVal.str (chL ("Host A")))]) rfl⟩

/-- Claim C8 counterexample: wrapping a valid JSON list of turns in a
fenced code block tagged `python` (a tag other than `json`) changes the
parser result — the fence strip only removes a `json` tag, the strict
decode then fails on the leftover tag text, and the regex fallback
drops the `Narrator` turn. -/
theorem c8_counterexample :
    jsonLoads (chL ("[\x7b\"speaker\": \"Narrator\", \"text\": \"hi\"\x7d]"))
      = some (JVal.arr [JVal.obj [(chL ("speaker"), JVal.str (chL ("Narrator"))),
                                  (chL ("text"), JVal.str (chL ("hi")))]])
    ∧ smart_parse_script
        (fenceWith (chL ("python")) (chL ("[\x7b\"speaker\": \"Narrator\", \"text\": \"hi\"\x7d]")))
      = []
    ∧ ¬ (turnPairsOf (smart_parse_script
          (fenceWith (chL ("python")) (chL ("[\x7b\"speaker\": \"Narrator\", \"text\": \"hi\"\x7d]"))))
        = turnPairsOf (smart_parse_script
          (chL ("[\x7b\"speaker\": \"Narrator\", \"text\": \"hi\"\x7d]")))) := by
  refine ⟨rfl, rfl, by decide⟩

/-- Claim C7 counterexample: a malformed text (trailing comma) whose
single turn lists `text` before `speaker` contains both literal
fragments, yet the fallback scan recovers nothing while the strict
decode of the well-formed equivalent (same text without the trailing
comma) yields the turn — the fallback pattern only finds `text` after
`speaker`. -/
theorem c7_counterexample :
    jsonLoads (cleanJsonText (chL ("[\x7b\"text\": \"hello\", \"speaker\": \"Host A\"\x7d,]")))
      = none
    ∧ isInfixB (chL ("\"speaker\": \"Host A\""))
        (chL ("[\x7b\"text\": \"hello\", \"speaker\": \"Host A\"\x7d,]")) = true
    ∧ isInfixB (chL ("\"text\": \"hello\""))
        (chL ("[\x7b\"text\": \"hello\", \"speaker\": \"Host A\"\x7d,]")) = true
    ∧ smart_parse_script (chL ("[\x7b\"text\": \"hello\", \"speaker\": \"Host A\"\x7d,]")) = []
    ∧ turnPairsOf (smart_parse_script
        (chL ("[\x7b\"text\": \"hello\", \"speaker\": \"Host A\"\x7d]")))
      = [(chL ("Host A"), chL ("hello"))]
    ∧ ¬ (turnPairsOf (smart_parse_script
          (chL ("[\x7b\"text\": \"hello\", \"speaker\": \"Host A\"\x7d,]")))
        = turnPairsOf (smart_parse_script
          (chL ("[\x7b\"text\": \"hello\", \"speaker\": \"Host A\"\x7d]")))) := by
  refine ⟨rfl, by decide, by decide, rfl, rfl, by decide⟩

/-! ### Lemmas about the fallback scanner (for Claim C7) -/

theorem isPrefixOf_append_self (l m : List Char) : l.isPrefixOf (l ++ m) = true :=
  List.isPrefixOf_iff_prefix.mpr (List.prefix_append l m)

theorem expectL_append (lit cs : List Char) : expectL lit (lit ++ cs) = some cs := by
  simp [expectL, isPrefixOf_append_self, List.drop_left]

theorem expectL_cons_ne {a b : Char} (hne : a ≠ b) (l m : List Char) :
    expectL (a :: l) (b :: m) = none := by
  have hb : (a == b) = false := beq_eq_false_iff_ne.mpr hne
  simp [expectL, List.isPrefixOf, hb]

theorem tryTextKey_cons_ne {c : Char} (h : c ≠ '"') (cs : List Char) :
    tryTextKey (c :: cs) = none := by
  have hlit : expectL litText (c :: cs) = none := by
    rw [show litText = '"' :: 't' :: 'e' :: 'x' :: 't' :: ['"'] from rfl]
    exact expectL_cons_ne (fun he => h he.symm) _ _
  simp [tryTextKey, hlit]

theorem matchTail_cons_ne {c : Char} (h : c ≠ '"') (cs : List Char) :
    matchTail (c :: cs) = matchTail cs := by
  simp [matchTail, tryTextKey_cons_ne h]

theorem takeUntilQuote_clean (txt cs : List Char) (h : ∀ x ∈ txt, x ≠ '"') :
    takeUntilQuote (txt ++ '"' :: cs) = some (txt, cs) := by
  induction txt with
  | nil => simp [takeUntilQuote]
  | cons c t ih =>
    have hc : c ≠ '"' := h c (List.mem_cons_self _ _)
    have iht := ih (fun x hx => h x (List.mem_cons_of_mem _ hx))
    simp [takeUntilQuote, hc, iht]

theorem tryTextKey_key (rest : List Char) :
    tryTextKey ('"' :: 't' :: 'e' :: 'x' :: 't' :: '"' :: ':' :: ' ' :: '"' :: rest)
      = some rest := by
  have e1 : expectL litText ('"' :: 't' :: 'e' :: 'x' :: 't' :: '"' :: ':' :: ' ' :: '"' :: rest)
      = some (':' :: ' ' :: '"' :: rest) := expectL_append litText _
  have s1 : skipPyWs (':' :: ' ' :: '"' :: rest) = ':' :: ' ' :: '"' :: rest := rfl
  have e2 : expectL [':'] (':' :: ' ' :: '"' :: rest) = some (' ' :: '"' :: rest) :=
    expectL_append [':'] _
  have s2 : skipPyWs (' ' :: '"' :: rest) = '"' :: rest := rfl
  have e3 : expectL ['"'] ('"' :: rest) = some rest := expectL_append ['"'] _
  simp only [tryTextKey, e1, s1, e2, s2, e3]

theorem matchTail_key (txt cs : List Char) (h : ∀ x ∈ txt, x ≠ '"') :
    matchTail ('"' :: 't' :: 'e' :: 'x' :: 't' :: '"' :: ':' :: ' ' :: '"' ::
        (txt ++ '"' :: cs))
      = some (txt, cs) := by
  have hkey := tryTextKey_key (txt ++ '"' :: cs)
  simp [matchTail, hkey, takeUntilQuote_clean txt cs h]

theorem matchAt_nonquote {c : Char} (h : c ≠ '"') (cs : List Char) :
    matchAt (c :: cs) = none := by
  have hlit : expectL litSpeaker (c :: cs) = none := by
    rw [show litSpeaker = '"' :: 's' :: 'p' :: 'e' :: 'a' :: 'k' :: 'e' :: 'r' :: ['"'] from rfl]
    exact expectL_cons_ne (fun he => h he.symm) _ _
  simp [matchAt, hlit]

theorem matchAt_hostLetter (c : Char) (hc : c = 'A' ∨ c = 'B') (txt cs : List Char)
    (h : ∀ x ∈ txt, x ≠ '"') :
    matchAt ('"' :: 's' :: 'p' :: 'e' :: 'a' :: 'k' :: 'e' :: 'r' :: '"' :: ':' :: ' ' :: '"' ::
        'H' :: 'o' :: 's' :: 't' :: ' ' :: c :: '"' :: ',' :: ' ' ::
        '"' :: 't' :: 'e' :: 'x' :: 't' :: '"' :: ':' :: ' ' :: '"' :: (txt ++ '"' :: cs))
      = some (litHost ++ [c], txt, cs) := by
  have e1 : expectL litSpeaker ('"' :: 's' :: 'p' :: 'e' :: 'a' :: 'k' :: 'e' :: 'r' :: '"' ::
      ':' :: ' ' :: '"' :: 'H' :: 'o' :: 's' :: 't' :: ' ' :: c :: '"' :: ',' :: ' ' ::
      '"' :: 't' :: 'e' :: 'x' :: 't' :: '"' :: ':' :: ' ' :: '"' :: (txt ++ '"' :: cs))
      = some (':' :: ' ' :: '"' :: 'H' :: 'o' :: 's' :: 't' :: ' ' :: c :: '"' :: ',' :: ' ' ::
        '"' :: 't' :: 'e' :: 'x' :: 't' :: '"' :: ':' :: ' ' :: '"' :: (txt ++ '"' :: cs)) :=
    expectL_append litSpeaker _
  have s1 : skipPyWs (':' :: ' ' :: '"' :: 'H' :: 'o' :: 's' :: 't' :: ' ' :: c :: '"' :: ',' ::
      ' ' :: '"' :: 't' :: 'e' :: 'x' :: 't' :: '"' :: ':' :: ' ' :: '"' :: (txt ++ '"' :: cs))
      = ':' :: ' ' :: '"' :: 'H' :: 'o' :: 's' :: 't' :: ' ' :: c :: '"' :: ',' :: ' ' ::
        '"' :: 't' :: 'e' :: 'x' :: 't' :: '"' :: ':' :: ' ' :: '"' :: (txt ++ '"' :: cs) := rfl
  have e2 : expectL [':'] (':' :: ' ' :: '"' :: 'H' :: 'o' :: 's' :: 't' :: ' ' :: c :: '"' ::
      ',' :: ' ' :: '"' :: 't' :: 'e' :: 'x' :: 't' :: '"' :: ':' :: ' ' :: '"' ::
      (txt ++ '"' :: cs))
      = some (' ' :: '"' :: 'H' :: 'o' :: 's' :: 't' :: ' ' :: c :: '"' :: ',' :: ' ' ::
        '"' :: 't' :: 'e' :: 'x' :: 't' :: '"' :: ':' :: ' ' :: '"' :: (txt ++ '"' :: cs)) :=
    expectL_append [':'] _
  have s2 : skipPyWs (' ' :: '"' :: 'H' :: 'o' :: 's' :: 't' :: ' ' :: c :: '"' :: ',' :: ' ' ::
      '"' :: 't' :: 'e' :: 'x' :: 't' :: '"' :: ':' :: ' ' :: '"' :: (txt ++ '"' :: cs))
      = '"' :: 'H' :: 'o' :: 's' :: 't' :: ' ' :: c :: '"' :: ',' :: ' ' ::
        '"' :: 't' :: 'e' :: 'x' :: 't' :: '"' :: ':' :: ' ' :: '"' :: (txt ++ '"' :: cs) := rfl
  have e3 : expectL ['"'] ('"' :: 'H' :: 'o' :: 's' :: 't' :: ' ' :: c :: '"' :: ',' :: ' ' ::
      '"' :: 't' :: 'e' :: 'x' :: 't' :: '"' :: ':' :: ' ' :: '"' :: (txt ++ '"' :: cs))
      = some ('H' :: 'o' :: 's' :: 't' :: ' ' :: c :: '"' :: ',' :: ' ' ::
        '"' :: 't' :: 'e' :: 'x' :: 't' :: '"' :: ':' :: ' ' :: '"' :: (txt ++ '"' :: cs)) :=
    expectL_append ['"'] _
  have e4 : expectL litHost ('H' :: 'o' :: 's' :: 't' :: ' ' :: c :: '"' :: ',' :: ' ' ::
      '"' :: 't' :: 'e' :: 'x' :: 't' :: '"' :: ':' :: ' ' :: '"' :: (txt ++ '"' :: cs))
      = some (c :: '"' :: ',' :: ' ' ::
        '"' :: 't' :: 'e' :: 'x' :: 't' :: '"' :: ':' :: ' ' :: '"' :: (txt ++ '"' :: cs)) :=
    expectL_append litHost _
  have e5 : expectL ['"'] ('"' :: ',' :: ' ' ::
      '"' :: 't' :: 'e' :: 'x' :: 't' :: '"' :: ':' :: ' ' :: '"' :: (txt ++ '"' :: cs))
      = some (',' :: ' ' ::
        '"' :: 't' :: 'e' :: 'x' :: 't' :: '"' :: ':' :: ' ' :: '"' :: (txt ++ '"' :: cs)) :=
    expectL_append ['"'] _
  simp only [matchAt, e1, s1, e2, s2, e3, e4, if_pos hc, e5]
  rw [matchTail_cons_ne (by decide), matchTail_cons_ne (by decide), matchTail_key txt cs h]
  rfl

theorem matchAt_snippet (spk : HostSpk) (txt cs : List Char) (h : ∀ x ∈ txt, x ≠ '"') :
    matchAt (snippet spk txt ++ cs) = some (spkChars spk, txt, cs) := by
  cases spk with
  | A =>
    have hform : snippet HostSpk.A txt ++ cs
        = '"' :: 's' :: 'p' :: 'e' :: 'a' :: 'k' :: 'e' :: 'r' :: '"' :: ':' :: ' ' :: '"' ::
          'H' :: 'o' :: 's' :: 't' :: ' ' :: 'A' :: '"' :: ',' :: ' ' ::
          '"' :: 't' :: 'e' :: 'x' :: 't' :: '"' :: ':' :: ' ' :: '"' ::
          (txt ++ '"' :: cs) := by
      simp [snippet, litSpeaker, litText, litHost, spkChars]
    rw [hform]
    exact matchAt_hostLetter 'A' (Or.inl rfl) txt cs h
  | B =>
    have hform : snippet HostSpk.B txt ++ cs
        = '"' :: 's' :: 'p' :: 'e' :: 'a' :: 'k' :: 'e' :: 'r' :: '"' :: ':' :: ' ' :: '"' ::
          'H' :: 'o' :: 's' :: 't' :: ' ' :: 'B' :: '"' :: ',' :: ' ' ::
          '"' :: 't' :: 'e' :: 'x' :: 't' :: '"' :: ':' :: ' ' :: '"' ::
          (txt ++ '"' :: cs) := by
      simp [snippet, litSpeaker, litText, litHost, spkChars]
    rw [hform]
    exact matchAt_hostLetter 'B' (Or.inr rfl) txt cs h

theorem scanAllF_nil (fuel : Nat) : scanAllF fuel [] = [] := by
  cases fuel <;> rfl

theorem scanAllF_succ_none {c : Char} {cs : List Char} (fuel : Nat)
    (h : matchAt (c :: cs) = none) :
    scanAllF (fuel + 1) (c :: cs) = scanAllF fuel cs := by
  simp [scanAllF, h]

theorem scanAllF_succ_some {l rest : List Char} {s t : List Char} (fuel : Nat)
    (hne : l ≠ []) (h : matchAt l = some (s, t, rest)) :
    scanAllF (fuel + 1) l = (s, t) :: scanAllF fuel rest := by
  cases l with
  | nil => exact absurd rfl hne
  | cons c cs => simp [scanAllF, h]

theorem scanAllF_glue (g : List Char) (hg : ∀ x ∈ g, x ≠ '"') (fuel : Nat) (cs : List Char) :
    scanAllF (g.length + fuel) (g ++ cs) = scanAllF fuel cs := by
  induction g with
  | nil => simp
  | cons c g' ih =>
    have hc : c ≠ '"' := hg c (List.mem_cons_self _ _)
    have ih' := ih (fun x hx => hg x (List.mem_cons_of_mem _ hx))
    have harith : (c :: g').length + fuel = (g'.length + fuel) + 1 := by
      simp [List.length_cons]; omega
    rw [harith, List.cons_append, scanAllF_succ_none _ (matchAt_nonquote hc _)]
    exact ih'

theorem snippet_ne_nil (spk : HostSpk) (txt : List Char) : snippet spk txt ≠ [] := by
  cases spk <;> simp [snippet, litSpeaker]

theorem snippet_length_pos (spk : HostSpk) (txt : List Char) :
    0 < (snippet spk txt).length := by
  cases spk <;> simp [snippet, litSpeaker]

theorem renderLoose_nil (g0 : List Char) : renderLoose g0 [] = g0 := by
  simp [renderLoose]

theorem renderLoose_cons (g0 : List Char) (p : HostSpk × List Char × List Char)
    (ps : List (HostSpk × List Char × List Char)) :
    renderLoose g0 (p :: ps) = g0 ++ (snippet p.1 p.2.1 ++ renderLoose p.2.2 ps) := by
  simp [renderLoose]

theorem scanAllF_render (ps : List (HostSpk × List Char × List Char)) :
    ∀ (g0 : List Char) (fuel : Nat),
      (∀ x ∈ g0, x ≠ '"') →
      (∀ p ∈ ps, (∀ x ∈ p.2.1, x ≠ '"') ∧ (∀ x ∈ p.2.2, x ≠ '"')) →
      (renderLoose g0 ps).length < fuel →
      scanAllF fuel (renderLoose g0 ps) = ps.map (fun p => (spkChars p.1, p.2.1)) := by
  induction ps with
  | nil =>
    intro g0 fuel hg _ hlen
    rw [renderLoose_nil] at hlen ⊢
    obtain ⟨f, rfl⟩ : ∃ f, fuel = g0.length + f := ⟨fuel - g0.length, by omega⟩
    calc scanAllF (g0.length + f) g0
        = scanAllF (g0.length + f) (g0 ++ []) := by rw [List.append_nil]
      _ = scanAllF f [] := scanAllF_glue g0 hg f []
      _ = [] := scanAllF_nil f
  | cons p ps' ih =>
    intro g0 fuel hg hp hlen
    rw [renderLoose_cons] at hlen ⊢
    have hpq := hp p (List.mem_cons_self _ _)
    have hlen' := hlen
    simp only [List.length_append] at hlen'
    obtain ⟨f1, rfl⟩ : ∃ f, fuel = g0.length + f := ⟨fuel - g0.length, by omega⟩
    rw [scanAllF_glue g0 hg]
    have hsp := snippet_length_pos p.1 p.2.1
    obtain ⟨f2, rfl⟩ : ∃ f, f1 = f + 1 := ⟨f1 - 1, by omega⟩
    have hne : snippet p.1 p.2.1 ++ renderLoose p.2.2 ps' ≠ [] := by
      intro hcontra
      rw [List.append_eq_nil] at hcontra
      exact snippet_ne_nil p.1 p.2.1 hcontra.1
    rw [scanAllF_succ_some f2 hne (matchAt_snippet p.1 p.2.1 _ hpq.1), List.map_cons]
    have harith : (renderLoose p.2.2 ps').length < f2 := by omega
    rw [ih p.2.2 f2 hpq.2 (fun q hq => hp q (List.mem_cons_of_mem _ hq)) harith]

theorem scanAll_render (g0 : List Char) (ps : List (HostSpk × List Char × List Char))
    (hg : ∀ x ∈ g0, x ≠ '"')
    (hp : ∀ p ∈ ps, (∀ x ∈ p.2.1, x ≠ '"') ∧ (∀ x ∈ p.2.2, x ≠ '"')) :
    scanAll (renderLoose g0 ps) = ps.map (fun p => (spkChars p.1, p.2.1)) :=
  scanAllF_render ps g0 _ hg hp (Nat.lt_succ_self _)

theorem turnPairsOf_map_obj (l : List (List Char × List Char)) :
    turnPairsOf (l.map (fun p =>
      JVal.obj [(chL ("speaker"), JVal.str p.1), (chL ("text"), JVal.str p.2)])) = l := by
  induction l with
  | nil => rfl
  | cons p t ih =>
    simp only [List.map_cons, turnPairsOf] at ih ⊢
    rw [ih]
    rfl

theorem strictItemsOf_turnObjs (ps : List (HostSpk × List Char × List Char)) :
    strictItemsOf (JVal.arr (ps.map (fun p => turnObj p.1 p.2.1)))
      = ps.map (fun p => turnObj p.1 p.2.1) := by
  have hred : strictItemsOf (JVal.arr (ps.map (fun p => turnObj p.1 p.2.1)))
      = (ps.map (fun p => turnObj p.1 p.2.1)).filter isValidItem := by
    simp [strictItemsOf, unwrapData]
  rw [hred, List.filter_eq_self.mpr]
  intro a ha
  obtain ⟨q, _, rfl⟩ := List.mem_map.mp ha
  rfl

theorem turnPairsOf_turnObjs (ps : List (HostSpk × List Char × List Char)) :
    turnPairsOf (ps.map (fun p => turnObj p.1 p.2.1))
      = ps.map (fun p => (spkChars p.1, p.2.1)) := by
  have hcomp : ps.map (fun p => turnObj p.1 p.2.1)
      = (ps.map (fun p => (spkChars p.1, p.2.1))).map (fun q =>
          JVal.obj [(chL ("speaker"), JVal.str q.1), (chL ("text"), JVal.str q.2)]) := by
    rw [List.map_map]
    rfl
  rw [hcomp, turnPairsOf_map_obj]

/-- Claim C7 (amended): when every turn occurs as a
`"speaker": "Host X"` fragment followed by its `"text": "..."`
fragment (speaker before text), text values carry no double-quote
character, and the malformed glue around the fragments carries no
double-quote character, the regex fallback recovers exactly the ordered
(speaker, text) turns that the strict decode path produces on the
corresponding well-formed JSON list of turn objects. -/
theorem c7_amended :
    ∀ (g0 : List Char) (ps : List (HostSpk × List Char × List Char)),
      quoteFreeB g0 = true →
      (∀ p ∈ ps, quoteFreeB p.2.1 = true) →
      (∀ p ∈ ps, quoteFreeB p.2.2 = true) →
      turnPairsOf (parse_dialogue_regex_strict (renderLoose g0 ps))
          = ps.map (fun p => (spkChars p.1, p.2.1))
      ∧ strictItemsOf (JVal.arr (ps.map (fun p => turnObj p.1 p.2.1)))
          = ps.map (fun p => turnObj p.1 p.2.1)
      ∧ turnPairsOf (ps.map (fun p => turnObj p.1 p.2.1))
          = ps.map (fun p => (spkChars p.1, p.2.1)) := by
  intro g0 ps hg hp1 hp2
  have conv1 : ∀ (l : List Char), quoteFreeB l = true → ∀ x ∈ l, x ≠ '"' := by
    intro l hl x hx
    have := List.all_eq_true.mp hl x hx
    simpa using this
  have hg' := conv1 g0 hg
  have hp' : ∀ p ∈ ps, (∀ x ∈ p.2.1, x ≠ '"') ∧ (∀ x ∈ p.2.2, x ≠ '"') :=
    fun p hp => ⟨conv1 _ (hp1 p hp), conv1 _ (hp2 p hp)⟩
  refine ⟨?_, strictItemsOf_turnObjs ps, turnPairsOf_turnObjs ps⟩
  unfold parse_dialogue_regex_strict
  rw [scanAll_render g0 ps hg' hp', turnPairsOf_map_obj]

/-- Claim C7 amended, applied to two turns embedded in quote-free
malformed glue: the fallback recovers exactly the strict path's turns. -/
theorem c7_amended_witness :
    turnPairsOf (parse_dialogue_regex_strict (renderLoose (chL ("[ broken "))
        [(HostSpk.A, chL ("a1"), chL (", oops ")), (HostSpk.B, chL ("b2"), chL ("]"))]))
      = [(spkChars HostSpk.A, chL ("a1")), (spkChars HostSpk.B, chL ("b2"))]
    ∧ turnPairsOf (strictItemsOf (JVal.arr
        [turnObj HostSpk.A (chL ("a1")), turnObj HostSpk.B (chL ("b2"))]))
      = [(spkChars HostSpk.A, chL ("a1")), (spkChars HostSpk.B, chL ("b2"))] := by
  have h := c7_amended (chL ("[ broken "))
    [(HostSpk.A, chL ("a1"), chL (", oops ")), (HostSpk.B, chL ("b2"), chL ("]"))]
    (by decide) (by decide) (by decide)
  refine ⟨h.1, ?_⟩
  have h2 := h.2.1
  rw [show (([(HostSpk.A, chL ("a1"), chL (", oops ")),
      (HostSpk.B, chL ("b2"), chL ("]"))] : List (HostSpk × List Char × List Char)).map
      (fun p => turnObj p.1 p.2.1))
      = [turnObj HostSpk.A (chL ("a1")), turnObj HostSpk.B (chL ("b2"))] from rfl] at h2
  rw [h2]
  exact h.2.2.trans (by rfl)

/-! ### Lemmas about clean_json_text and code fences (for Claim C8) -/

theorem map_self_of_mem {α : Type} (f : α → α) (l : List α) (h : ∀ a ∈ l, f a = a) :
    l.map f = l := by
  induction l with
  | nil => rfl
  | cons a t ih =>
    rw [List.map_cons, h a (List.mem_cons_self _ _),
      ih (fun b hb => h b (List.mem_cons_of_mem _ hb))]

theorem trimLeftL_cons_not {c : Char} (h : isStripWs c = false) (s : List Char) :
    trimLeftL (c :: s) = c :: s := by
  simp [trimLeftL, List.dropWhile_cons, h]

theorem trimLeftL_cons_ws {c : Char} (h : isStripWs c = true) (s : List Char) :
    trimLeftL (c :: s) = trimLeftL s := by
  simp [trimLeftL, List.dropWhile_cons, h]

theorem trimRightL_append_not {c : Char} (h : isStripWs c = false) (s : List Char) :
    trimRightL (s ++ [c]) = s ++ [c] := by
  simp [trimRightL, List.reverse_append, List.dropWhile_cons, h]

theorem trimRightL_append_nl (s : List Char) :
    trimRightL (s ++ ['\n']) = trimRightL s := by
  simp [trimRightL, List.reverse_append, List.dropWhile_cons,
    (show isStripWs '\n' = true from rfl)]

theorem stripL_nl_wrap (T : List Char) : stripL ('\n' :: (T ++ ['\n'])) = stripL T := by
  unfold stripL
  rw [trimLeftL_cons_ws (by decide)]
  unfold trimLeftL
  rw [List.dropWhile_append]
  by_cases hT : (T.dropWhile isStripWs).isEmpty
  · simp [hT]
    have : T.dropWhile isStripWs = [] := by
      cases h : T.dropWhile isStripWs
      · rfl
      · rw [h] at hT; exact Bool.noConfusion hT
    rw [this]
    rfl
  · simp [hT]
    exact trimRightL_append_nl _

theorem splitLines_ne_nil (s : List Char) : splitLines s ≠ [] := by
  cases s with
  | nil => exact List.cons_ne_nil _ _
  | cons c rest =>
    by_cases hc : c = '\n'
    · simp [splitLines, hc]
    · simp only [splitLines, if_neg hc]
      cases splitLines rest with
      | nil => exact List.cons_ne_nil _ _
      | cons l ls => exact List.cons_ne_nil _ _

theorem splitLines_cons_nl (X : List Char) : splitLines ('\n' :: X) = [] :: splitLines X := by
  simp [splitLines]

theorem splitLines_cons_ne {c : Char} (hc : c ≠ '\n') (X : List Char) :
    splitLines (c :: X)
      = match splitLines X with
        | [] => [[c]]
        | l :: ls => (c :: l) :: ls := by
  simp [splitLines, hc]

theorem splitLines_append (A B : List Char) :
    splitLines (A ++ '\n' :: B) = splitLines A ++ splitLines B := by
  induction A with
  | nil => simp [splitLines_cons_nl, splitLines]
  | cons c A' ih =>
    rw [List.cons_append]
    by_cases hc : c = '\n'
    · subst hc
      rw [splitLines_cons_nl, splitLines_cons_nl, ih, List.cons_append]
    · obtain ⟨l, ls, hA⟩ := List.exists_cons_of_ne_nil (splitLines_ne_nil A')
      rw [splitLines_cons_ne hc, splitLines_cons_ne hc, ih, hA, List.cons_append]
      rfl

theorem unLines_cons_ne {ls : List (List Char)} (h : ls ≠ []) (l : List Char) :
    unLines (l :: ls) = l ++ '\n' :: unLines ls := by
  cases ls with
  | nil => exact absurd rfl h
  | cons l2 ls' => rfl

theorem unLines_append_singleton {ls : List (List Char)} (h : ls ≠ []) (x : List Char) :
    unLines (ls ++ [x]) = unLines ls ++ '\n' :: x := by
  induction ls with
  | nil => exact absurd rfl h
  | cons l ls' ih =>
    cases ls' with
    | nil => rfl
    | cons l2 ls'' =>
      rw [List.cons_append,
        unLines_cons_ne (by simp) l,
        unLines_cons_ne (List.cons_ne_nil _ _) l,
        ih (List.cons_ne_nil _ _)]
      simp

theorem unLines_splitLines (s : List Char) : unLines (splitLines s) = s := by
  induction s with
  | nil => rfl
  | cons c rest ih =>
    by_cases hc : c = '\n'
    · subst hc
      rw [splitLines_cons_nl, unLines_cons_ne (splitLines_ne_nil rest), ih]
      rfl
    · obtain ⟨l, ls, hA⟩ := List.exists_cons_of_ne_nil (splitLines_ne_nil rest)
      rw [splitLines_cons_ne hc, hA]
      rw [hA] at ih
      cases ls with
      | nil =>
        simp only [unLines] at ih ⊢
        rw [ih]
      | cons l2 ls' =>
        rw [unLines_cons_ne (List.cons_ne_nil _ _)] at ih
        rw [unLines_cons_ne (List.cons_ne_nil _ _)]
        rw [List.cons_append, ih]

/-- Effect of `clean_json_text` on text that carries no fence marker:
the identity after stripping. -/
theorem cleanJsonText_id (T : List Char) (hstrip : stripL T = T)
    (hnp : (chL ("```")).isPrefixOf T = false)
    (hns : (chL ("```")).isSuffixOf T = false) :
    cleanJsonText T = T := by
  simp [cleanJsonText, hstrip, hnp, hns]

/-- Effect of `clean_json_text` on a fenced text: when the tag line is
removed entirely by the first substitution and no line of the body
starts with a fence marker, the fence is stripped and the body is
returned (stripped). -/
theorem cleanJsonText_fence (tag T : List Char)
    (htagline : splitLines (chL ("```") ++ tag) = [chL ("```") ++ tag])
    (htagsub : sub1Line (chL ("```") ++ tag) = [])
    (hlines : ∀ l ∈ splitLines T, sub1Line l = l) :
    cleanJsonText (fenceWith tag T) = stripL T := by
  have hshape : fenceWith tag T
      = (chL ("```") ++ tag) ++ '\n' :: (T ++ '\n' :: chL ("```")) := by
    simp [fenceWith]
  have hsplit : splitLines (fenceWith tag T)
      = (chL ("```") ++ tag) :: (splitLines T ++ [chL ("```")]) := by
    rw [hshape, splitLines_append, htagline, splitLines_append,
      (show splitLines (chL ("```")) = [chL ("```")] from rfl)]
    rfl
  have hstrip : stripL (fenceWith tag T) = fenceWith tag T := by
    have h1 : trimLeftL (fenceWith tag T) = fenceWith tag T := by
      show trimLeftL ('`' :: ('`' :: '`' :: (tag ++ '\n' :: T ++ '\n' :: chL ("```"))))
        = '`' :: ('`' :: '`' :: (tag ++ '\n' :: T ++ '\n' :: chL ("```")))
      exact trimLeftL_cons_not (by decide) _
    have hshape2 : fenceWith tag T
        = (chL ("```") ++ tag ++ '\n' :: T ++ ['\n', '`', '`']) ++ ['`'] := by
      rw [show chL ("```") = ['`', '`', '`'] from rfl]
      simp [fenceWith, (show chL ("```") = ['`', '`', '`'] from rfl)]
    have h2 : trimRightL (fenceWith tag T) = fenceWith tag T := by
      rw [hshape2]
      exact trimRightL_append_not (by decide) _
    unfold stripL
    rw [h1, h2]
  have hpre : (chL ("```")).isPrefixOf (fenceWith tag T) = true := by
    show (chL ("```")).isPrefixOf
      (chL ("```") ++ (tag ++ '\n' :: T ++ '\n' :: chL ("```"))) = true
    exact isPrefixOf_append_self _ _
  have hsub1 : unLines ((splitLines (fenceWith tag T)).map sub1Line)
      = '\n' :: (T ++ ['\n']) := by
    rw [hsplit, List.map_cons, htagsub, List.map_append,
      map_self_of_mem sub1Line _ hlines,
      (show List.map sub1Line [chL ("```")] = [[]] from rfl),
      unLines_cons_ne (by simp [splitLines_ne_nil T]),
      unLines_append_singleton (splitLines_ne_nil T), unLines_splitLines]
    rfl
  have hnosuf : (chL ("```")).isSuffixOf ('\n' :: (T ++ ['\n'])) = false := by
    unfold List.isSuffixOf
    rw [show ('\n' :: (T ++ ['\n'])).reverse = '\n' :: (T.reverse ++ ['\n']) by simp]
    rw [show (chL ("```")).reverse = '`' :: ['`', '`'] from rfl]
    simp [List.isPrefixOf]
  simp only [cleanJsonText, hstrip, hpre, if_true, hsub1, hnosuf, if_false,
    Bool.false_eq_true]
  exact stripL_nl_wrap T

/-- Claim C8 (amended): for a model output that strictly decodes to a
list with at least one turn carrying both keys, wrapping it in a fenced
code block tagged `json` or untagged does not change the parser result
(the text must carry no stray fence marker of its own: it is already
stripped, no line starts with a backtick fence, and it does not end in
one); and any text decoding to a `script`/`dialogue`/`content` wrapper
object around the same list parses to the same turns as the bare
list. -/
theorem c8_amended :
    ∀ (T : List Char) (items : List JVal),
      stripL T = T →
      (chL ("```")).isPrefixOf T = false →
      (chL ("```")).isSuffixOf T = false →
      (∀ l ∈ splitLines T, sub1Line l = l) →
      jsonLoads T = some (JVal.arr items) →
      (items.filter isValidItem).isEmpty = false →
      smart_parse_script (fenceJson T) = smart_parse_script T
      ∧ smart_parse_script (fenceBare T) = smart_parse_script T
      ∧ (∀ T2 : List Char, stripL T2 = T2 →
          (chL ("```")).isPrefixOf T2 = false →
          (chL ("```")).isSuffixOf T2 = false →
          ∀ k ∈ wrapperKeys,
          jsonLoads T2 = some (JVal.obj [(k, JVal.arr items)]) →
          smart_parse_script T2 = smart_parse_script T) := by
  intro T items hstrip hnp hns hlines hload hvalid
  have hcleanT : cleanJsonText T = T := cleanJsonText_id T hstrip hnp hns
  have hmain : smart_parse_script T = items.filter isValidItem :=
    smartParse_eq_filter T items (by rw [hcleanT]; exact hload) hvalid
  refine ⟨?_, ?_, ?_⟩
  · have hclean : cleanJsonText (fenceJson T) = T := by
      rw [show fenceJson T = fenceWith (chL ("json")) T from rfl,
        cleanJsonText_fence (chL ("json")) T rfl rfl hlines, hstrip]
    exact (smartParse_eq_filter _ items (by rw [hclean]; exact hload) hvalid).trans
      hmain.symm
  · have hclean : cleanJsonText (fenceBare T) = T := by
      rw [show fenceBare T = fenceWith [] T from rfl,
        cleanJsonText_fence [] T rfl rfl hlines, hstrip]
    exact (smartParse_eq_filter _ items (by rw [hclean]; exact hload) hvalid).trans
      hmain.symm
  · intro T2 hstrip2 hnp2 hns2 k hk hload2
    have hclean2 : cleanJsonText T2 = T2 := cleanJsonText_id T2 hstrip2 hnp2 hns2
    have hk' : k = chL ("script") ∨ k = chL ("dialogue") ∨ k = chL ("content") := by
      simpa [wrapperKeys] using hk
    have hunwrap : unwrapData (JVal.obj [(k, JVal.arr items)]) = JVal.arr items := by
      rcases hk' with rfl | rfl | rfl <;> rfl
    have h2 : smart_parse_script T2 = items.filter isValidItem := by
      cases T2 with
      | nil =>
        rw [show jsonLoads ([] : List Char) = none from rfl] at hload2
        exact Option.noConfusion hload2
      | cons c cs =>
        simp [smart_parse_script, hclean2, hload2, hunwrap, hvalid]
    exact h2.trans hmain.symm

/-- Claim C8 amended, applied to a concrete one-turn list: json fence,
bare fence and `script` wrapper all parse to the bare list's turns. -/
theorem c8_amended_witness :
    smart_parse_script (fenceJson (chL ("[\x7b\"speaker\": \"Host A\", \"text\": \"hi\"\x7d]")))
      = smart_parse_script (chL ("[\x7b\"speaker\": \"Host A\", \"text\": \"hi\"\x7d]"))
    ∧ smart_parse_script (fenceBare (chL ("[\x7b\"speaker\": \"Host A\", \"text\": \"hi\"\x7d]")))
      = smart_parse_script (chL ("[\x7b\"speaker\": \"Host A\", \"text\": \"hi\"\x7d]"))
    ∧ smart_parse_script
        (chL ("\x7b\"script\": [\x7b\"speaker\": \"Host A\", \"text\": \"hi\"\x7d]\x7d"))
      = smart_parse_script (chL ("[\x7b\"speaker\": \"Host A\", \"text\": \"hi\"\x7d]")) := by
  have h := c8_amended (chL ("[\x7b\"speaker\": \"Host A\", \"text\": \"hi\"\x7d]"))
    [JVal.obj [(chL ("speaker"), JVal.str (chL ("Host A"))),
               (chL ("text"), JVal.str (chL ("hi")))]]
    rfl rfl rfl (by decide) rfl rfl
  exact ⟨h.1, h.2.1,
    h.2.2 (chL ("\x7b\"script\": [\x7b\"speaker\": \"Host A\", \"text\": \"hi\"\x7d]\x7d"))
      rfl rfl rfl (chL ("script")) (by decide) rfl⟩

end Podcast
